import Mathlib

/-!
Verification of the sapio contract-declaration core
(`src/sapio/src/contract/macros.rs`).

The file models, as a shallow embedding:

* the process-wide schema cache `get_schema_for` backed by
  `SCHEMA_MAP : Mutex<HashMap<TypeId, Arc<RootSchema>>>`, as an explicit
  state machine whose single step is the whole lock-protected
  lookup-or-insert operation (the code holds the mutex across checking,
  computing and inserting, so one call is one atomic step; any concurrent
  execution of N callers is therefore some interleaving, i.e. some list of
  atomic steps).  Mutex poisoning on panic is modelled by a `poisoned`
  flag, matching `std::sync::Mutex` semantics: a panic while the lock is
  held poisons the mutex and every later `lock().unwrap()` panics.

* the expansions of the declaration macros `declare!`, `then!`, `finish!`,
  `web_api!`, `guard!` and `compile_if!`, as functions producing the data
  that each macro arm generates (a stub/body method plus a factory).
-/

namespace Sapio

/-- `core::any::TypeId`: a stable identity token, unique per type. -/
abbrev TypeId := Nat

/-- `schemars::schema::RootSchema`: an opaque structural schema value. -/
abbrev RootSchema := Nat

/-- An `Arc<RootSchema>` handle: the allocation identity together with the
schema value.  Two handles are the identical shared instance iff they are
equal (cloning an `Arc` preserves both components). -/
structure ArcSchema where
  allocId : Nat
  value : RootSchema
deriving DecidableEq

/-- The outcome of one `get_schema_for` call: a shared handle, or a panic
(either `lock().unwrap()` on a poisoned mutex, or a panic inside the schema
generation closure). -/
inductive CallResult where
  | ok (h : ArcSchema)
  | panicked
deriving DecidableEq

/-- The state of `SCHEMA_MAP` plus bookkeeping: `poisoned` models mutex
poisoning; `map` is the `HashMap` contents as an association list;
`nextAlloc` supplies fresh `Arc` allocation identities; `log` records, in
order, every type for which the schema-generation routine
(`schema_for!(T)`) actually executed. -/
structure CacheState where
  poisoned : Bool
  map : List (TypeId × ArcSchema)
  nextAlloc : Nat
  log : List TypeId
deriving DecidableEq

/-- The initial state: `Mutex::new(HashMap::new())`. -/
def initState : CacheState := ⟨false, [], 0, []⟩

/-- `HashMap` lookup, on the association-list model. -/
def mapLookup (t : TypeId) : List (TypeId × ArcSchema) → Option ArcSchema
  | [] => none
  | (u, h) :: rest => if u = t then some h else mapLookup t rest

/-- One call to `get_schema_for::<T>()`, i.e.
`SCHEMA_MAP.lock().unwrap().entry(TypeId::of::<T>())
.or_insert_with(|| Arc::new(schema_for!(T))).clone()`.
`gen t = none` models the schema-generation closure panicking for `t`
(which poisons the mutex, since the guard is held).  The whole
lookup-or-insert runs under the mutex, hence is one atomic step. -/
def get_schema_for (gen : TypeId → Option RootSchema) (t : TypeId)
    (s : CacheState) : CallResult × CacheState :=
  if s.poisoned then (.panicked, s)
  else
    match mapLookup t s.map with
    | some h => (.ok h, s)
    | none =>
      match gen t with
      | some v =>
        (.ok ⟨s.nextAlloc, v⟩,
         ⟨false, (t, ⟨s.nextAlloc, v⟩) :: s.map, s.nextAlloc + 1,
          s.log ++ [t]⟩)
      | none => (.panicked, ⟨true, s.map, s.nextAlloc, s.log ++ [t]⟩)

/-- A schedule of calls, one `TypeId` per caller step.  Because each call is
one critical section, any concurrent execution of the callers is some such
schedule. -/
def runCalls (gen : TypeId → Option RootSchema) :
    List TypeId → CacheState → List CallResult × CacheState
  | [], s => ([], s)
  | t :: ts, s =>
    ((get_schema_for gen t s).1 ::
       (runCalls gen ts (get_schema_for gen t s).2).1,
     (runCalls gen ts (get_schema_for gen t s).2).2)

/-- The results of exactly the calls made for type `t` in a schedule. -/
def resultsFor (t : TypeId) (ts : List TypeId) (rs : List CallResult) :
    List CallResult :=
  ((ts.zip rs).filter (fun p => p.1 == t)).map Prod.snd

theorem resultsFor_nil (t : TypeId) (rs : List CallResult) :
    resultsFor t [] rs = [] := by
  simp [resultsFor]

theorem resultsFor_cons (t u : TypeId) (ts : List TypeId) (r : CallResult)
    (rs : List CallResult) :
    resultsFor t (u :: ts) (r :: rs) =
      if u = t then r :: resultsFor t ts rs else resultsFor t ts rs := by
  by_cases h : u = t <;> simp [resultsFor, h]

theorem mem_of_mem_resultsFor {t : TypeId} {ts : List TypeId}
    {rs : List CallResult} {r : CallResult} (h : r ∈ resultsFor t ts rs) :
    r ∈ rs := by
  simp only [resultsFor, List.mem_map, List.mem_filter] at h
  obtain ⟨p, ⟨hp, _⟩, hpr⟩ := h
  exact hpr ▸ (List.of_mem_zip hp).2

/-- A handle stored for `t` is never changed by any later call: the map only
grows by inserting keys that were absent. -/
theorem lookup_persists (gen : TypeId → Option RootSchema) (u t : TypeId)
    {h : ArcSchema} {s : CacheState} (hs : mapLookup t s.map = some h) :
    mapLookup t (get_schema_for gen u s).2.map = some h := by
  unfold get_schema_for
  split
  · exact hs
  · cases hu : mapLookup u s.map with
    | some h' => simp [hu, hs]
    | none =>
      cases hg : gen u with
      | some v =>
        have hut : u ≠ t := by
          intro he
          rw [he, hs] at hu
          exact Option.noConfusion hu
        simp [hu, hg, mapLookup, hut, hs]
      | none => simp [hu, hg, hs]

theorem lookup_persists_run (gen : TypeId → Option RootSchema) (t : TypeId)
    {h : ArcSchema} :
    ∀ (ts : List TypeId) (s : CacheState),
      mapLookup t s.map = some h →
      mapLookup t (runCalls gen ts s).2.map = some h := by
  intro ts
  induction ts with
  | nil => intro s hs; exact hs
  | cons u ts ih =>
    intro s hs
    exact ih _ (lookup_persists gen u t hs)

/-- A call that returns `ok h` leaves `h` stored for its type. -/
theorem step_ok_lookup {gen : TypeId → Option RootSchema} {t : TypeId}
    {s : CacheState} {h : ArcSchema}
    (hr : (get_schema_for gen t s).1 = .ok h) :
    mapLookup t (get_schema_for gen t s).2.map = some h := by
  unfold get_schema_for at hr ⊢
  split at hr
  · exact absurd hr (by simp)
  · rename_i hp
    cases hu : mapLookup t s.map with
    | some h' =>
      simp [hu] at hr ⊢
      simp [hp, hu, ← hr]
    | none =>
      cases hg : gen t with
      | some v =>
        simp [hu, hg] at hr ⊢
        simp [hp, mapLookup, ← hr]
      | none => simp [hp, hu, hg] at hr

/-- Every successful result for `t` in a run equals the handle stored for
`t` in the final state; hence all successful results for `t` agree. -/
theorem ok_result_eq_final_lookup (gen : TypeId → Option RootSchema)
    (t : TypeId) :
    ∀ (ts : List TypeId) (s : CacheState) (h : ArcSchema),
      CallResult.ok h ∈ resultsFor t ts (runCalls gen ts s).1 →
      mapLookup t (runCalls gen ts s).2.map = some h := by
  intro ts
  induction ts with
  | nil =>
    intro s h hm
    rw [runCalls, resultsFor_nil] at hm
    exact absurd hm (List.not_mem_nil _)
  | cons u ts ih =>
    intro s h hm
    rw [runCalls] at hm ⊢
    rw [resultsFor_cons] at hm
    by_cases hut : u = t
    · subst hut
      rw [if_pos rfl] at hm
      rcases List.mem_cons.mp hm with he | hm
      · exact lookup_persists_run gen u ts _ (step_ok_lookup he.symm)
      · exact ih _ h hm
    · rw [if_neg hut] at hm
      exact ih _ h hm

/-- The run-state invariant: a type whose generation has run is either
stored in the map or the mutex is poisoned, and generation never runs twice
for the same type. -/
def CacheInv (s : CacheState) : Prop :=
  ∀ u, (u ∈ s.log → (mapLookup u s.map).isSome = true ∨ s.poisoned = true) ∧
    s.log.count u ≤ 1

theorem cacheInv_init : CacheInv initState := by
  intro u
  constructor
  · intro hu
    exact absurd hu (List.not_mem_nil u)
  · simp [initState]

theorem cacheInv_step {s : CacheState} (gen : TypeId → Option RootSchema)
    (t : TypeId) (hinv : CacheInv s) :
    CacheInv (get_schema_for gen t s).2 := by
  unfold get_schema_for
  split
  · exact hinv
  · rename_i hp
    cases hu : mapLookup t s.map with
    | some h' => simpa [hu] using hinv
    | none =>
      have htlog : t ∉ s.log := by
        intro hmem
        rcases (hinv t).1 hmem with hsome | hpois
        · rw [hu] at hsome
          exact Bool.noConfusion hsome
        · exact hp hpois
      have hcount : s.log.count t = 0 := List.count_eq_zero.mpr htlog
      cases hg : gen t with
      | some v =>
        simp only [hu, hg]
        intro u
        refine ⟨fun humem => ?_, ?_⟩
        · by_cases hut : u = t
          · subst hut
            simp [mapLookup]
          · rcases List.mem_append.mp humem with h1 | h1
            · rcases (hinv u).1 h1 with hsome | hpois
              · left
                simp only [mapLookup]
                rw [if_neg (fun he => hut he.symm)]
                exact hsome
              · exact absurd hpois hp
            · exact absurd (List.mem_singleton.mp h1) hut
        · by_cases hut : u = t
          · subst hut
            simp [List.count_append, hcount]
          · have : List.count u [t] = 0 :=
              List.count_eq_zero.mpr (fun hm => hut (List.mem_singleton.mp hm))
            simp [List.count_append, this]
            exact (hinv u).2
      | none =>
        simp only [hu, hg]
        intro u
        refine ⟨fun _ => Or.inr rfl, ?_⟩
        by_cases hut : u = t
        · subst hut
          simp [List.count_append, hcount]
        · have : List.count u [t] = 0 :=
            List.count_eq_zero.mpr (fun hm => hut (List.mem_singleton.mp hm))
          simp [List.count_append, this]
          exact (hinv u).2

theorem cacheInv_run (gen : TypeId → Option RootSchema) :
    ∀ (ts : List TypeId) (s : CacheState), CacheInv s →
      CacheInv (runCalls gen ts s).2 := by
  intro ts
  induction ts with
  | nil => intro s hs; exact hs
  | cons u ts ih =>
    intro s hs
    rw [runCalls]
    exact ih _ (cacheInv_step gen u hs)

theorem step_not_poisoned {s : CacheState}
    {gen : TypeId → Option RootSchema} {t : TypeId}
    (hp : s.poisoned = false) (hg : (gen t).isSome = true) :
    (get_schema_for gen t s).2.poisoned = false := by
  unfold get_schema_for
  rw [hp]
  cases hu : mapLookup t s.map with
  | some h => simpa using hp
  | none =>
    cases hgen : gen t with
    | some v => simp
    | none => rw [hgen] at hg; exact Bool.noConfusion hg

theorem run_not_poisoned (gen : TypeId → Option RootSchema) :
    ∀ (ts : List TypeId) (s : CacheState), s.poisoned = false →
      (∀ u ∈ ts, (gen u).isSome = true) →
      (runCalls gen ts s).2.poisoned = false := by
  intro ts
  induction ts with
  | nil => intro s hp _; exact hp
  | cons u ts ih =>
    intro s hp htot
    rw [runCalls]
    exact ih _ (step_not_poisoned hp (htot u (List.mem_cons_self u ts)))
      (fun w hw => htot w (List.mem_cons_of_mem u hw))

/-- Whatever is stored in the map got there by a generation run. -/
def LogComplete (s : CacheState) : Prop :=
  ∀ u, (mapLookup u s.map).isSome = true → u ∈ s.log

theorem logComplete_init : LogComplete initState := by
  intro u hu
  simp [initState, mapLookup] at hu

theorem logComplete_step {s : CacheState}
    (gen : TypeId → Option RootSchema) (t : TypeId) (hlc : LogComplete s) :
    LogComplete (get_schema_for gen t s).2 := by
  unfold get_schema_for
  split
  · exact hlc
  · cases hu : mapLookup t s.map with
    | some h => simpa [hu] using hlc
    | none =>
      cases hg : gen t with
      | some v =>
        intro w hw
        simp only [mapLookup] at hw
        by_cases hwt : t = w
        · subst hwt
          simp
        · rw [if_neg hwt] at hw
          exact List.mem_append_left _ (hlc w hw)
      | none =>
        intro w hw
        exact List.mem_append_left _ (hlc w hw)

theorem log_subset_step {s : CacheState}
    (gen : TypeId → Option RootSchema) (t : TypeId) :
    s.log ⊆ (get_schema_for gen t s).2.log := by
  unfold get_schema_for
  split
  · exact fun _ h => h
  · cases hu : mapLookup t s.map with
    | some h => simp
    | none =>
      cases hg : gen t with
      | some v => exact fun w hw => List.mem_append_left _ hw
      | none => exact fun w hw => List.mem_append_left _ hw

theorem log_subset_run (gen : TypeId → Option RootSchema) :
    ∀ (ts : List TypeId) (s : CacheState),
      s.log ⊆ (runCalls gen ts s).2.log := by
  intro ts
  induction ts with
  | nil => intro s; exact fun _ h => h
  | cons u ts ih =>
    intro s
    rw [runCalls]
    exact fun w hw => ih _ (log_subset_step gen u hw)

/-- After a non-panicking call for `t`, the generation log contains `t`:
either it just ran, or the value was cached, which means it ran earlier. -/
theorem mem_log_after_step {s : CacheState}
    {gen : TypeId → Option RootSchema} {t : TypeId}
    (hp : s.poisoned = false) (hg : (gen t).isSome = true)
    (hlc : LogComplete s) :
    t ∈ (get_schema_for gen t s).2.log := by
  unfold get_schema_for
  rw [hp]
  cases hu : mapLookup t s.map with
  | some h =>
    simp only
    exact hlc t (by rw [hu]; rfl)
  | none =>
    cases hgen : gen t with
    | some v => simp
    | none => rw [hgen] at hg; exact Bool.noConfusion hg

theorem mem_log_run (gen : TypeId → Option RootSchema) :
    ∀ (ts : List TypeId) (s : CacheState) (t : TypeId), t ∈ ts →
      s.poisoned = false → (∀ u ∈ ts, (gen u).isSome = true) →
      LogComplete s →
      t ∈ (runCalls gen ts s).2.log := by
  intro ts
  induction ts with
  | nil => intro s t ht; exact absurd ht (List.not_mem_nil t)
  | cons u ts ih =>
    intro s t ht hp htot hlc
    rw [runCalls]
    rcases List.mem_cons.mp ht with he | hmem
    · subst he
      exact log_subset_run gen ts _
        (mem_log_after_step hp (htot t (List.mem_cons_self t ts)) hlc)
    · exact ih _ t hmem
        (step_not_poisoned hp (htot u (List.mem_cons_self u ts)))
        (fun w hw => htot w (List.mem_cons_of_mem u hw))
        (logComplete_step gen u hlc)

/-- Under total generation and an unpoisoned start, no call panics. -/
theorem run_results_ok (gen : TypeId → Option RootSchema) :
    ∀ (ts : List TypeId) (s : CacheState), s.poisoned = false →
      (∀ u ∈ ts, (gen u).isSome = true) →
      ∀ r ∈ (runCalls gen ts s).1, ∃ h, r = CallResult.ok h := by
  intro ts
  induction ts with
  | nil =>
    intro s _ _ r hr
    rw [runCalls] at hr
    exact absurd hr (List.not_mem_nil r)
  | cons u ts ih =>
    intro s hp htot r hr
    rw [runCalls] at hr
    rcases List.mem_cons.mp hr with he | hmem
    · subst he
      unfold get_schema_for
      rw [hp]
      cases hu : mapLookup u s.map with
      | some h => exact ⟨h, rfl⟩
      | none =>
        cases hgen : gen u with
        | some v => exact ⟨_, rfl⟩
        | none =>
          have := htot u (List.mem_cons_self u ts)
          rw [hgen] at this
          exact Bool.noConfusion this
    · exact ih _ (step_not_poisoned hp (htot u (List.mem_cons_self u ts)))
        (fun w hw => htot w (List.mem_cons_of_mem u hw)) r hmem

/-- C1: for every type identity `t`, any sequence of `get_schema_for` calls
executes the schema-generation routine at most once for `t`, and every call
for `t` that returns a handle returns the identical shared handle (the one
computed and stored by the first call). -/
theorem get_schema_for_at_most_once (gen : TypeId → Option RootSchema)
    (ts : List TypeId) (t : TypeId) :
    (runCalls gen ts initState).2.log.count t ≤ 1 ∧
    ∀ h₁ h₂ : ArcSchema,
      CallResult.ok h₁ ∈ resultsFor t ts (runCalls gen ts initState).1 →
      CallResult.ok h₂ ∈ resultsFor t ts (runCalls gen ts initState).1 →
      h₁ = h₂ := by
  constructor
  · exact ((cacheInv_run gen ts initState cacheInv_init) t).2
  · intro h₁ h₂ hm₁ hm₂
    have e₁ := ok_result_eq_final_lookup gen t ts initState h₁ hm₁
    have e₂ := ok_result_eq_final_lookup gen t ts initState h₂ hm₂
    rw [e₁] at e₂
    exact Option.some.inj e₂

theorem get_schema_for_at_most_once_witness :
    (CallResult.ok ⟨0, 5⟩ ∈ resultsFor 0 [0, 0]
        (runCalls (fun _ => some 5) [0, 0] initState).1) ∧
    (runCalls (fun _ => some 5) [0, 0] initState).2.log.count 0 ≤ 1 ∧
    (⟨0, 5⟩ : ArcSchema) = ⟨0, 5⟩ :=
  ⟨by decide,
   (get_schema_for_at_most_once (fun _ => some 5) [0, 0] 0).1,
   (get_schema_for_at_most_once (fun _ => some 5) [0, 0] 0).2 ⟨0, 5⟩ ⟨0, 5⟩
     (by decide) (by decide)⟩

/-- C3: a concurrent execution of N callers is an interleaving of their
atomic critical sections, i.e. a schedule `ts`.  For any type identity `t`
requested at least once, with schema generation total on the requested
types, the generation routine executes exactly once for `t` and every
caller for `t` observes the identical shared schema instance. -/
theorem get_schema_for_exactly_once_concurrent
    (gen : TypeId → Option RootSchema) (ts : List TypeId) (t : TypeId)
    (htot : ∀ u ∈ ts, (gen u).isSome = true) (ht : t ∈ ts) :
    (runCalls gen ts initState).2.log.count t = 1 ∧
    ∃ h : ArcSchema,
      ∀ r ∈ resultsFor t ts (runCalls gen ts initState).1,
        r = CallResult.ok h := by
  have hmem : t ∈ (runCalls gen ts initState).2.log :=
    mem_log_run gen ts initState t ht rfl htot logComplete_init
  have hinv := cacheInv_run gen ts initState cacheInv_init
  have hpois : (runCalls gen ts initState).2.poisoned = false :=
    run_not_poisoned gen ts initState rfl htot
  constructor
  · exact Nat.le_antisymm ((hinv t).2) (List.count_pos_iff.mpr hmem)
  · rcases (hinv t).1 hmem with hsome | hpois'
    · obtain ⟨h, hh⟩ := Option.isSome_iff_exists.mp hsome
      refine ⟨h, fun r hr => ?_⟩
      obtain ⟨h', he⟩ := run_results_ok gen ts initState rfl htot r
        (mem_of_mem_resultsFor hr)
      subst he
      have e := ok_result_eq_final_lookup gen t ts initState h' hr
      rw [hh] at e
      exact congrArg CallResult.ok (Option.some.inj e).symm
    · rw [hpois'] at hpois
      exact Bool.noConfusion hpois

theorem get_schema_for_exactly_once_concurrent_witness :
    ((∀ u ∈ ([0, 1, 0] : List TypeId),
        ((fun _ : TypeId => (some 5 : Option RootSchema)) u).isSome = true) ∧
      (0 : TypeId) ∈ ([0, 1, 0] : List TypeId)) ∧
    ((runCalls (fun _ => some 5) [0, 1, 0] initState).2.log.count 0 = 1 ∧
     ∃ h : ArcSchema,
       ∀ r ∈ resultsFor 0 [0, 1, 0]
           (runCalls (fun _ => some 5) [0, 1, 0] initState).1,
         r = CallResult.ok h) :=
  ⟨⟨by decide, by decide⟩,
   get_schema_for_exactly_once_concurrent (fun _ => some 5) [0, 1, 0] 0
     (by decide) (by decide)⟩

/-- C9: if a call to `get_schema_for` panics while holding the cache lock
(schema generation panics for an uncached type), the mutex becomes poisoned
and every subsequent call — for any type identity, including already-cached
ones — panics at `lock().unwrap()`. -/
theorem get_schema_for_poisoning (gen : TypeId → Option RootSchema)
    (t₁ : TypeId) (s : CacheState) (hp : s.poisoned = false)
    (hl : mapLookup t₁ s.map = none) (hg : gen t₁ = none) :
    (get_schema_for gen t₁ s).1 = CallResult.panicked ∧
    ∀ (gen' : TypeId → Option RootSchema) (t : TypeId),
      (get_schema_for gen' t (get_schema_for gen t₁ s).2).1 =
        CallResult.panicked := by
  refine ⟨?_, fun gen' t => ?_⟩ <;> simp [get_schema_for, hp, hl, hg]

theorem get_schema_for_poisoning_witness :
    ((⟨false, [(2, ⟨0, 5⟩)], 1, [2]⟩ : CacheState).poisoned = false ∧
      mapLookup 3 [(2, ⟨0, 5⟩)] = none) ∧
    (get_schema_for (fun _ => none) 3
        ⟨false, [(2, ⟨0, 5⟩)], 1, [2]⟩).1 = CallResult.panicked ∧
    (get_schema_for (fun _ => some 9) 2
        (get_schema_for (fun _ => none) 3
          ⟨false, [(2, ⟨0, 5⟩)], 1, [2]⟩).2).1 = CallResult.panicked :=
  ⟨⟨rfl, by decide⟩,
   (get_schema_for_poisoning (fun _ => none) 3 _ rfl (by decide) rfl).1,
   (get_schema_for_poisoning (fun _ => none) 3 _ rfl (by decide) rfl).2
     (fun _ => some 9) 2⟩

/-- `Context`: opaque compile-time environment, forwarded verbatim. -/
abbrev Context := Nat

/-- `sapio_base::Clause`: opaque spending-clause value. -/
abbrev Clause := Nat

/-- A transaction template (opaque, consumed downstream). -/
abbrev TxTmpl := Nat

/-- A compilation or coercion error (opaque, typed). -/
abbrev CompilationError := Nat

/-- `ConditionalCompileType`: opaque compile-inclusion decision. -/
abbrev ConditionalCompileType := Nat

/-- The outcome of invoking a generated body: `fatal` models
`unimplemented!()` terminating the process; `val` is an ordinary return. -/
inductive Outcome (α : Type) where
  | fatal
  | val (a : α)
deriving DecidableEq

/-- `TxTmplIt`: the declared return value of a pathway body — a finite
sequence of transaction templates, or a typed error. -/
inductive TxTmplIt where
  | templates (ts : List TxTmpl)
  | err (e : CompilationError)
deriving DecidableEq

/-- Modelled from the spec: the `Guard` type of `contract::actions` (its
defining file is not in the tree).  A predicate-producing reference plus a
caching policy; the constructor names `Fresh` and `Cache` are fixed by
their uses in `guard!`. -/
inductive Guard (S : Type) where
  | Fresh (f : S → Context → Outcome Clause)
  | Cache (f : S → Context → Outcome Clause)

/-- Modelled from the spec: `ConditionallyCompileIf` of `contract::actions`
(defining file not in the tree).  A reference plus, currently, the single
policy variant `Fresh`, fixed by its use in `compile_if!` and by the spec
("a single policy variant"). -/
inductive ConditionallyCompileIf (S : Type) where
  | Fresh (f : S → Context → Outcome ConditionalCompileType)

/-- Modelled from the spec: `ThenFunc` of `contract::actions` (defining
file not in the tree); the fields `guard`, `conditional_compile_if` and
`func` are fixed by the struct literal in `then!`.  The guard and
compile-gate lists hold zero-argument factories, each yielding absent or a
present declaration. -/
structure ThenFunc (S : Type) where
  guard : List (Unit → Option (Guard S))
  conditional_compile_if : List (Unit → Option (ConditionallyCompileIf S))
  func : S → Context → Outcome TxTmplIt

/-- Modelled from the spec: `FinishOrFunc` of `contract::actions` (defining
file not in the tree); the fields are fixed by the struct literal in
`finish!`.  `Stateful` is the contract's shared `StatefulArguments`
envelope; `coerce_args` narrows it to this pathway's typed argument,
reporting a typed failure on mismatch. -/
structure FinishOrFunc (S Stateful Arg : Type) where
  coerce_args : Stateful → Except CompilationError Arg
  guard : List (Unit → Option (Guard S))
  conditional_compile_if : List (Unit → Option (ConditionallyCompileIf S))
  func : S → Context → Arg → Outcome TxTmplIt
  schema : Option ArcSchema
  name : String

/-- What one `then!` invocation generates: the `THEN_name` body method and
the `name()` factory. -/
structure ThenDecl (S : Type) where
  body : S → Context → Outcome TxTmplIt
  factory : Option (ThenFunc S)

/-- Expansion of `then!(name)` (null form): the stub body is
`unimplemented!()` and the factory returns `None`. -/
def then_null (S : Type) : ThenDecl S :=
  ⟨fun _ _ => .fatal, none⟩

/-- Expansion of the full arm
`then!(compile_if: c guarded_by: g fn name(s, ctx) b)`: the generated
`THEN_name` method is the author body `b`, and the factory returns
`Some(ThenFunc { guard: g, conditional_compile_if: c, func: THEN_name })`. -/
def then_full (S : Type)
    (c : List (Unit → Option (ConditionallyCompileIf S)))
    (g : List (Unit → Option (Guard S)))
    (b : S → Context → Outcome TxTmplIt) : ThenDecl S :=
  ⟨b, some ⟨g, c, b⟩⟩

/-- Expansion of `then!(fn name(s, ctx) b)`: delegates to the full arm with
`compile_if: []` and `guarded_by: []`. -/
def then_unguarded (S : Type) (b : S → Context → Outcome TxTmplIt) :
    ThenDecl S :=
  then_full S [] [] b

/-- Expansion of `then!(guarded_by: g fn name(s, ctx) b)`: delegates to the
full arm with `compile_if: []`. -/
def then_guarded_by (S : Type) (g : List (Unit → Option (Guard S)))
    (b : S → Context → Outcome TxTmplIt) : ThenDecl S :=
  then_full S [] g b

/-- Expansion of `then!(compile_if: c fn name(s, ctx) b)`: delegates to the
full arm with `guarded_by: []`. -/
def then_compile_if_arm (S : Type)
    (c : List (Unit → Option (ConditionallyCompileIf S)))
    (b : S → Context → Outcome TxTmplIt) : ThenDecl S :=
  then_full S c [] b

/-- Expansion of `web_api!`: with a leading `web{}` block the generated
`FINISH_API_FOR_name` const is `Some(get_schema_for::<T>())`, consulting
the process-wide schema cache; without it the const is `None`.  A panic
inside `get_schema_for` aborts the evaluation (`fatal`). -/
def web_api (web : Bool) (gen : TypeId → Option RootSchema) (t : TypeId)
    (s : CacheState) : Outcome (Option ArcSchema) × CacheState :=
  if web then
    match get_schema_for gen t s with
    | (.ok h, s') => (.val (some h), s')
    | (.panicked, s') => (.fatal, s')
  else (.val none, s)

/-- What one `finish!` invocation generates: the `FINISH_API_FOR_name`
const, the `FINISH_name` body method and the `name()` factory. -/
structure FinishDecl (S Stateful Arg : Type) where
  schemaConst : Option ArcSchema
  body : S → Context → Arg → Outcome TxTmplIt
  factory : Option (FinishOrFunc S Stateful Arg)

/-- Expansion of `finish!([web{}] name<Arg>)` (null form): the const comes
from `web_api!`, the stub body is `unimplemented!()`, the factory returns
`None`. -/
def finish_null (S Stateful Arg : Type) (web : Bool)
    (gen : TypeId → Option RootSchema) (t : TypeId) (st : CacheState) :
    Outcome (FinishDecl S Stateful Arg) × CacheState :=
  match web_api web gen t st with
  | (.fatal, s') => (.fatal, s')
  | (.val sc, s') => (.val ⟨sc, fun _ _ _ => .fatal, none⟩, s')

/-- Expansion of the full arm `finish!([web{}] compile_if: c guarded_by: g
coerce_args: coerce fn name(s, ctx, o : Arg) b)`: the `FINISH_name` method
is the author body, and the factory returns `Some(FinishOrFunc { .. })`
whose `schema` field reads the `FINISH_API_FOR_name` const. -/
def finish_full (S Stateful Arg : Type) (web : Bool)
    (gen : TypeId → Option RootSchema) (t : TypeId) (st : CacheState)
    (c : List (Unit → Option (ConditionallyCompileIf S)))
    (g : List (Unit → Option (Guard S)))
    (coerce : Stateful → Except CompilationError Arg) (nm : String)
    (b : S → Context → Arg → Outcome TxTmplIt) :
    Outcome (FinishDecl S Stateful Arg) × CacheState :=
  match web_api web gen t st with
  | (.fatal, s') => (.fatal, s')
  | (.val sc, s') => (.val ⟨sc, b, some ⟨coerce, g, c, b, sc, nm⟩⟩, s')

/-- Expansion of the `finish!` arm without `compile_if:`: delegates to the
full arm with `compile_if: []`. -/
def finish_guarded (S Stateful Arg : Type) (web : Bool)
    (gen : TypeId → Option RootSchema) (t : TypeId) (st : CacheState)
    (g : List (Unit → Option (Guard S)))
    (coerce : Stateful → Except CompilationError Arg) (nm : String)
    (b : S → Context → Arg → Outcome TxTmplIt) :
    Outcome (FinishDecl S Stateful Arg) × CacheState :=
  finish_full S Stateful Arg web gen t st [] g coerce nm b

/-- What one `guard!` invocation generates: the `GUARD_name` body method
and the `name()` factory. -/
structure GuardDecl (S : Type) where
  body : S → Context → Outcome Clause
  factory : Option (Guard S)

/-- Expansion of `guard!(name)` (null form). -/
def guard_null (S : Type) : GuardDecl S :=
  ⟨fun _ _ => .fatal, none⟩

/-- Expansion of `guard!(fn name(s, ctx) b)`: factory returns
`Some(Guard::Fresh(GUARD_name))`. -/
def guard_fresh (S : Type) (b : S → Context → Outcome Clause) : GuardDecl S :=
  ⟨b, some (.Fresh b)⟩

/-- Expansion of `guard!(cached fn name(s, ctx) b)`: factory returns
`Some(Guard::Cache(GUARD_name))`. -/
def guard_cached (S : Type) (b : S → Context → Outcome Clause) : GuardDecl S :=
  ⟨b, some (.Cache b)⟩

/-- What one `compile_if!` invocation generates: the `COMPILE_IFname` body
method and the `name()` factory. -/
structure CompileIfDecl (S : Type) where
  body : S → Context → Outcome ConditionalCompileType
  factory : Option (ConditionallyCompileIf S)

/-- Expansion of `compile_if!(name)` (null form). -/
def compile_if_null (S : Type) : CompileIfDecl S :=
  ⟨fun _ _ => .fatal, none⟩

/-- Expansion of `compile_if!(fn name(s, ctx) b)`: factory returns
`Some(ConditionallyCompileIf::Fresh(COMPILE_IFname))`. -/
def compile_if_with_body (S : Type)
    (b : S → Context → Outcome ConditionalCompileType) : CompileIfDecl S :=
  ⟨b, some (.Fresh b)⟩

/-- The per-contract-type registry: the three const factory slices bound by
`declare!` (`THEN_FNS`, `FINISH_FNS`, `FINISH_OR_FNS`). -/
structure Registry (S Stateful Arg : Type) where
  then_fns : List (Unit → Option (ThenFunc S))
  finish_fns : List (Unit → Option (Guard S))
  finish_or_fns : List (Unit → Option (FinishOrFunc S Stateful Arg))

/-- Expansion of `declare!{then, ...}` + `declare!{finish, ...}` +
`declare!{updatable<X>, ...}`: each arm stores the author's comma-separated
factory expressions, in source order, into the corresponding const slice
(`&[$($a,)*]`). -/
def declare (S Stateful Arg : Type)
    (ts : List (Unit → Option (ThenFunc S)))
    (fs : List (Unit → Option (Guard S)))
    (us : List (Unit → Option (FinishOrFunc S Stateful Arg))) :
    Registry S Stateful Arg :=
  ⟨ts, fs, us⟩

/-- Reading the registry: the three const slices, as the external compiler
sees them on any pass. -/
def readRegistry (S Stateful Arg : Type) (r : Registry S Stateful Arg) :
    List (Unit → Option (ThenFunc S)) ×
      List (Unit → Option (Guard S)) ×
      List (Unit → Option (FinishOrFunc S Stateful Arg)) :=
  (r.then_fns, r.finish_fns, r.finish_or_fns)

/-- Modelled from the spec: the external compiler treats a pathway as
usable when every guard produced by its guard-factory list is satisfied;
an absent guard factory contributes nothing. -/
def usableUnder (S : Type) (sat : Guard S → Bool) (tf : ThenFunc S) : Bool :=
  tf.guard.all fun gf =>
    match gf () with
    | none => true
    | some g => sat g

/-- Modelled from the spec: the external compiler statically includes a
pathway when every produced compile-gate decides inclusion; an absent gate
factory contributes no constraint. -/
def includedUnder (S : Type) (dec : ConditionallyCompileIf S → Bool)
    (tf : ThenFunc S) : Bool :=
  tf.conditional_compile_if.all fun cf =>
    match cf () with
    | none => true
    | some c => dec c

/-- The predicate wrapped by a guard: the core stores the author body bare,
whatever the policy tag. -/
def guardFn (S : Type) : Guard S → (S → Context → Outcome Clause)
  | .Fresh f => f
  | .Cache f => f

/-- C2: for every named pathway declared in null form via `then!`,
`guard!`, `compile_if!` or `finish!`, the generated factory returns absent
and the generated stub body unconditionally fails fatally if invoked; the
two stay consistent, so the registry entry for the name is never present
with a stub body. -/
theorem null_form_absent_and_fatal (S Stateful Arg : Type) (web : Bool)
    (gen : TypeId → Option RootSchema) (t : TypeId) (st : CacheState) :
    ((then_null S).factory = none ∧
      ∀ s c, (then_null S).body s c = Outcome.fatal) ∧
    ((guard_null S).factory = none ∧
      ∀ s c, (guard_null S).body s c = Outcome.fatal) ∧
    ((compile_if_null S).factory = none ∧
      ∀ s c, (compile_if_null S).body s c = Outcome.fatal) ∧
    (∀ d : FinishDecl S Stateful Arg,
      (finish_null S Stateful Arg web gen t st).1 = Outcome.val d →
      d.factory = none ∧ ∀ s c a, d.body s c a = Outcome.fatal) := by
  refine ⟨⟨rfl, fun _ _ => rfl⟩, ⟨rfl, fun _ _ => rfl⟩,
    ⟨rfl, fun _ _ => rfl⟩, fun d hd => ?_⟩
  unfold finish_null at hd
  rcases hw : web_api web gen t st with ⟨o, s'⟩
  rw [hw] at hd
  cases o with
  | fatal => exact Outcome.noConfusion hd
  | val sc =>
    simp only at hd
    cases Outcome.val.inj hd
    exact ⟨rfl, fun _ _ _ => rfl⟩

theorem null_form_absent_and_fatal_witness :
    (finish_null Nat Nat Nat false (fun _ => some 0) 0 initState).1 =
      Outcome.val ⟨none, fun _ _ _ => Outcome.fatal, none⟩ ∧
    ((⟨none, fun _ _ _ => Outcome.fatal, none⟩ :
        FinishDecl Nat Nat Nat).factory = none ∧
      ∀ s c a,
        (⟨none, fun _ _ _ => Outcome.fatal, none⟩ :
            FinishDecl Nat Nat Nat).body s c a = Outcome.fatal) :=
  ⟨rfl,
   (null_form_absent_and_fatal Nat Nat Nat false (fun _ => some 0) 0
       initState).2.2.2 _ rfl⟩

/-- C4: a `then!` pathway with an author body and no `guarded_by` or
`compile_if` annotation yields a present declaration whose guard list and
compile-gate list are both empty and whose body is the author body; it is
usable under every guard-satisfaction assignment and included under every
gate decision (no default-deny). -/
theorem then_unguarded_always_usable (S : Type)
    (b : S → Context → Outcome TxTmplIt) :
    ∃ tf : ThenFunc S, (then_unguarded S b).factory = some tf ∧
      tf.guard = [] ∧ tf.conditional_compile_if = [] ∧ tf.func = b ∧
      ∀ (sat : Guard S → Bool) (dec : ConditionallyCompileIf S → Bool),
        usableUnder S sat tf = true ∧ includedUnder S dec tf = true :=
  ⟨⟨[], [], b⟩, rfl, rfl, rfl, rfl, fun _ _ => ⟨rfl, rfl⟩⟩

/-- C5: `guard!` with a body yields a present guard tagged `Fresh` without
the `cached` keyword and `Cache` with it; in both cases the wrapped
function is exactly the author body — the policy is a tag only, and
evaluating the wrapped predicate is bare application of the body (no
memoization in this core). -/
theorem guard_policy_tag_only (S : Type)
    (b : S → Context → Outcome Clause) :
    (guard_fresh S b).factory = some (Guard.Fresh b) ∧
    (guard_cached S b).factory = some (Guard.Cache b) ∧
    guardFn S (Guard.Fresh b) = b ∧ guardFn S (Guard.Cache b) = b ∧
    (guard_fresh S b).body = b ∧ (guard_cached S b).body = b :=
  ⟨rfl, rfl, rfl, rfl, rfl, rfl⟩

/-- C6: for a `finish!` pathway with a body, the declaration's schema field
is a shared handle obtained from the Schema Cache for the pathway's
argument type exactly when the author opts in with `web{}`, and is absent
when the author opts out; the factory's `schema` field agrees with the
generated const. -/
theorem finish_schema_iff_web (S Stateful Arg : Type)
    (gen : TypeId → Option RootSchema) (t : TypeId) (st : CacheState)
    (c : List (Unit → Option (ConditionallyCompileIf S)))
    (g : List (Unit → Option (Guard S)))
    (coerce : Stateful → Except CompilationError Arg) (nm : String)
    (b : S → Context → Arg → Outcome TxTmplIt)
    (hp : st.poisoned = false) (v : RootSchema) (hv : gen t = some v) :
    (∃ (d : FinishDecl S Stateful Arg) (fof : FinishOrFunc S Stateful Arg)
        (h : ArcSchema),
      (finish_full S Stateful Arg true gen t st c g coerce nm b).1 =
        Outcome.val d ∧
      d.factory = some fof ∧
      (get_schema_for gen t st).1 = CallResult.ok h ∧
      fof.schema = some h ∧ d.schemaConst = some h) ∧
    (∀ st' : CacheState,
      ∃ (d : FinishDecl S Stateful Arg) (fof : FinishOrFunc S Stateful Arg),
        (finish_full S Stateful Arg false gen t st' c g coerce nm b).1 =
          Outcome.val d ∧
        d.factory = some fof ∧ fof.schema = none ∧ d.schemaConst = none) := by
  constructor
  · have hok : ∃ h, (get_schema_for gen t st).1 = CallResult.ok h := by
      unfold get_schema_for
      rw [hp]
      cases hu : mapLookup t st.map with
      | some h => exact ⟨h, rfl⟩
      | none => rw [hv]; exact ⟨_, rfl⟩
    obtain ⟨h, hh⟩ := hok
    refine ⟨⟨some h, b, some ⟨coerce, g, c, b, some h, nm⟩⟩,
      ⟨coerce, g, c, b, some h, nm⟩, h, ?_, rfl, hh, rfl, rfl⟩
    unfold finish_full web_api
    rcases hs : get_schema_for gen t st with ⟨r, s'⟩
    rw [hs] at hh
    simp only at hh
    rw [hh]
    rfl
  · intro st'
    exact ⟨⟨none, b, some ⟨coerce, g, c, b, none, nm⟩⟩,
      ⟨coerce, g, c, b, none, nm⟩, rfl, rfl, rfl, rfl⟩

theorem finish_schema_iff_web_witness :
    (initState.poisoned = false ∧
      (fun _ : TypeId => (some 7 : Option RootSchema)) 4 = some 7) ∧
    ((∃ (d : FinishDecl Nat Nat Nat) (fof : FinishOrFunc Nat Nat Nat)
        (h : ArcSchema),
      (finish_full Nat Nat Nat true (fun _ => some 7) 4 initState [] []
          (fun _ => Except.ok 0) "pathway"
          (fun _ _ _ => Outcome.val (TxTmplIt.templates []))).1 =
        Outcome.val d ∧
      d.factory = some fof ∧
      (get_schema_for (fun _ => some 7) 4 initState).1 = CallResult.ok h ∧
      fof.schema = some h ∧ d.schemaConst = some h) ∧
    (∀ st' : CacheState,
      ∃ (d : FinishDecl Nat Nat Nat) (fof : FinishOrFunc Nat Nat Nat),
        (finish_full Nat Nat Nat false (fun _ => some 7) 4 st' [] []
            (fun _ => Except.ok 0) "pathway"
            (fun _ _ _ => Outcome.val (TxTmplIt.templates []))).1 =
          Outcome.val d ∧
        d.factory = some fof ∧ fof.schema = none ∧ d.schemaConst = none)) :=
  ⟨⟨rfl, rfl⟩,
   finish_schema_iff_web Nat Nat Nat (fun _ => some 7) 4 initState [] []
     (fun _ => Except.ok 0) "pathway"
     (fun _ _ _ => Outcome.val (TxTmplIt.templates [])) rfl 7 rfl⟩

/-- C7: every present compile-gate produced by `compile_if!` carries the
policy `Fresh`, and `Fresh` is the only constructible policy variant for
compile-gates in this core. -/
theorem compile_if_only_fresh (S : Type)
    (b : S → Context → Outcome ConditionalCompileType) :
    (compile_if_with_body S b).factory =
      some (ConditionallyCompileIf.Fresh b) ∧
    ∀ cg : ConditionallyCompileIf S,
      ∃ f, cg = ConditionallyCompileIf.Fresh f := by
  refine ⟨rfl, fun cg => ?_⟩
  cases cg with
  | Fresh f => exact ⟨f, rfl⟩

/-- C8: the three registry lists bound by `declare!` hold the author's
factories in declaration order, and reading the registry twice yields the
same lists (they are immutable consts). -/
theorem registry_declaration_order (S Stateful Arg : Type)
    (ts : List (Unit → Option (ThenFunc S)))
    (fs : List (Unit → Option (Guard S)))
    (us : List (Unit → Option (FinishOrFunc S Stateful Arg))) :
    (declare S Stateful Arg ts fs us).then_fns = ts ∧
    (declare S Stateful Arg ts fs us).finish_fns = fs ∧
    (declare S Stateful Arg ts fs us).finish_or_fns = us ∧
    readRegistry S Stateful Arg (declare S Stateful Arg ts fs us) =
      readRegistry S Stateful Arg (declare S Stateful Arg ts fs us) :=
  ⟨rfl, rfl, rfl, rfl⟩

/-- C10: each shorthand arm of `then!` and `finish!` that omits the
`guarded_by` list, the `compile_if` list, or both produces a declaration
equal to the full arm with the omitted list supplied as `[]`. -/
theorem shorthand_arms_equal_full_arm (S Stateful Arg : Type) :
    (∀ b, then_unguarded S b = then_full S [] [] b) ∧
    (∀ g b, then_guarded_by S g b = then_full S [] g b) ∧
    (∀ c b, then_compile_if_arm S c b = then_full S c [] b) ∧
    (∀ (web : Bool) (gen : TypeId → Option RootSchema) (t : TypeId)
        (st : CacheState) g coerce nm b,
      finish_guarded S Stateful Arg web gen t st g coerce nm b =
        finish_full S Stateful Arg web gen t st [] g coerce nm b) :=
  ⟨fun _ => rfl, fun _ _ => rfl, fun _ _ => rfl,
   fun _ _ _ _ _ _ _ _ => rfl⟩
